import Mathlib

/-
Verification of the background process manager in src/extensions/background.ts
(the project-scoped variant: encodeProject / getFilePrefix / listProcesses /
startProcess / stopProcess / readLogs / getChildPids / getListeningPorts and
the tool handlers registered around them).

Modelling conventions:
- JS strings are embedded as `List Char` (abbreviated `Str`); a string literal
  of the source appears as `"...".toList`.
- The record store is the /tmp directory.  All artifacts of this extension are
  flat files directly under /tmp, so the directory is embedded as an
  association list from file basename to file content (`Files`).  The absolute
  paths the source builds with path.join(LOGS_DIR, ...) only resurface in the
  displayed `logFile` field, embedded by prepending "/tmp/".
- OS facts the program merely observes are environment fields of `Sys`:
  `alive` is the set of pid arguments for which a signal-0 probe
  (process.kill(pid, 0)) succeeds, `dirReadable` says whether
  fs.readdirSync("/tmp") succeeds, and the pid the OS hands back from a spawn
  is an explicit `Option Nat` argument of `startProcess` (none = spawn
  returned no pid).  `fds` tracks the file descriptors the controller holds
  open and `spawned` is a ledger of the OS processes actually created, so the
  theorems can speak about fd leaks and double spawns.
- Fallible operations return `Except BgErr`, one constructor per `throw new
  Error(...)` site of the source.
-/

abbrev Str := List Char

abbrev Files := List (Str × Str)

/-- Read a file: first entry of the association list with the given name. -/
def lookupF : Files → Str → Option Str
  | [], _ => none
  | (k0, v0) :: fs, k => if k0 = k then some v0 else lookupF fs k

/-- fs.writeFileSync / fs.openSync(..., "w"): overwrite the existing file or
create it. -/
def setFile : Files → Str → Str → Files
  | [], k, v => [(k, v)]
  | (k0, v0) :: fs, k, v => if k0 = k then (k, v) :: fs else (k0, v0) :: setFile fs k v

/-- fs.unlinkSync: remove the file. -/
def eraseFile : Files → Str → Files
  | [], _ => []
  | (k0, v0) :: fs, k => if k0 = k then eraseFile fs k else (k0, v0) :: eraseFile fs k

/-- Decimal digit test, charcodes 48-57. -/
def isDig (c : Char) : Bool := decide (48 ≤ c.toNat) && decide (c.toNat ≤ 57)

def charVal (c : Char) : Nat := c.toNat - 48

def digitsVal (cs : Str) : Nat := cs.foldl (fun a c => 10 * a + charVal c) 0

/-- Longest leading digit run, NaN (none) when there is none. -/
def parseDigits (cs : Str) : Option Nat :=
  if cs.takeWhile isDig = [] then none else some (digitsVal (cs.takeWhile isDig))

/-- JS parseInt(s, 10): optional sign, then the longest leading digit run;
anything NaN-producing is `none`. -/
def parseIntJS (s : Str) : Option Int :=
  match s with
  | [] => none
  | c :: rest =>
    if c = '-' then (parseDigits rest).map (fun n => -(n : Int))
    else if c = '+' then (parseDigits rest).map (fun n => ((n : Nat) : Int))
    else (parseDigits (c :: rest)).map (fun n => ((n : Nat) : Int))

def isWsChar (c : Char) : Bool := c = ' ' || c = '\n' || c = '\t' || c = '\r'

/-- JS String.prototype.trim (restricted to the whitespace that can actually
occur in this extension's artifacts). -/
def jsTrim (cs : Str) : Str := ((cs.dropWhile isWsChar).reverse.dropWhile isWsChar).reverse

def digitChar (d : Nat) : Char := Char.ofNat (48 + d)

/-- Decimal printing with explicit fuel so the kernel can evaluate it. -/
def natDecimalAux : Nat → Nat → Str
  | 0, _ => []
  | fuel + 1, n => if n < 10 then [digitChar n] else natDecimalAux fuel (n / 10) ++ [digitChar (n % 10)]

/-- JS Number.prototype.toString for the pids the registry writes. -/
def natDecimal (n : Nat) : Str := natDecimalAux (n + 1) n

/-- LOGS_DIR, as the path component prepended by path.join. -/
def tmpDir : Str := "/tmp/".toList

/-- PID_PREFIX constant of the source. -/
def pidTag : Str := "pi-bg-".toList

/-- encodeProject: cwd.replace(all "/" by "-").replace(one leading "-" by ""). -/
def encodeProject (cwd : Str) : Str :=
  match cwd.map (fun c => if c = '/' then '-' else c) with
  | '-' :: rest => rest
  | l => l

/-- The per-scope basename tag `${PID_PREFIX}${project}-` used both by
getFilePrefix and by the listProcesses filter. -/
def scopePref (projectDir : Str) : Str := pidTag ++ encodeProject projectDir ++ ['-']

/-- Basename of the pid file getFilePrefix + ".pid" produces. -/
def pidFileName (projectDir nm : Str) : Str := scopePref projectDir ++ nm ++ ".pid".toList

/-- Basename of the log file getFilePrefix + ".log" produces. -/
def logFileName (projectDir nm : Str) : Str := scopePref projectDir ++ nm ++ ".log".toList

/-- The filesystem-and-OS state an invocation observes and mutates. -/
structure Sys where
  files : Files
  alive : List Int
  fds : List Str
  spawned : List (Nat × Str × Str)
  dirReadable : Bool
deriving DecidableEq

/-- The ProcessInfo record of the source; `pid = none` stands for the NaN that
parseInt yields on unparsable pid-file content. -/
structure ProcessInfo where
  name : Str
  pid : Option Int
  running : Bool
  logFile : Str
deriving DecidableEq

/-- The try { process.kill(pid, 0); running = true } catch { running = false }
block: a non-destructive signal probe, any failure counts as not alive. -/
def runningProbe (pid? : Option Int) (alive : List Int) : Bool :=
  match pid? with
  | some p => decide (p ∈ alive)
  | none => false

/-- One throw site of the source per constructor. -/
inductive BgErr where
  | alreadyRunning (nm : Str) (pid : Option Int)
  | spawnFailed
  | notFound (nm : Str)
  | logNotFound (nm : Str)
deriving DecidableEq

/-- The f.startsWith(prefix) && f.endsWith(".pid") filter of listProcesses. -/
def pidFilter (projectDir f : Str) : Bool :=
  (scopePref projectDir).isPrefixOf f && (".pid".toList).isSuffixOf f

/-- The body of the listProcesses map callback: slice out the name, read and
parse the pid file, signal-probe the pid. -/
def mkRec (sys : Sys) (projectDir file : Str) : ProcessInfo :=
  let nm := (file.take (file.length - 4)).drop (scopePref projectDir).length
  let pid? := (lookupF sys.files file).bind (fun c => parseIntJS (jsTrim c))
  { name := nm
    pid := pid?
    running := runningProbe pid? sys.alive
    logFile := tmpDir ++ (scopePref projectDir ++ nm ++ ".log".toList) }

/-- listProcesses(projectDir): readdir /tmp (empty list if that fails), keep
basenames matching `${PID_PREFIX}${project}-*.pid`, and re-derive each
record's pid and liveness from the file content at call time. -/
def listProcesses (sys : Sys) (projectDir : Str) : List ProcessInfo :=
  if sys.dirReadable then
    ((sys.files.map Prod.fst).filter (pidFilter projectDir)).map (mkRec sys projectDir)
  else []

/-- startProcess(projectDir, name, command, cwd?).  `spawnPid` is the pid the
OS returns from the detached spawn (none = child.pid was undefined). -/
def startProcess (sys : Sys) (spawnPid : Option Nat) (projectDir nm command : Str)
    (cwd : Option Str) : Except BgErr ProcessInfo × Sys :=
  let pidFile := pidFileName projectDir nm
  let logFile := logFileName projectDir nm
  match (listProcesses sys projectDir).find? (fun p => p.name == nm && p.running) with
  | some ex => (.error (.alreadyRunning nm ex.pid), sys)
  | none =>
    let files1 := setFile sys.files logFile []
    match spawnPid with
    | none => (.error .spawnFailed, { sys with files := files1, fds := sys.fds })
    | some pid =>
      let childCwd := match cwd with
        | some c => if c = [] then projectDir else c
        | none => projectDir
      (.ok { name := nm, pid := some ((pid : Nat) : Int), running := true,
             logFile := tmpDir ++ logFile },
       { sys with
         files := setFile files1 pidFile (natDecimal pid)
         fds := logFile :: sys.fds
         spawned := (pid, command, childCwd) :: sys.spawned
         alive := ((pid : Nat) : Int) :: sys.alive })

/-- stopProcess(projectDir, name).  `dies` is the environment's choice of
whether the SIGTERM actually terminates the target; delivery failure is
swallowed either way and the pid file removal is unconditional. -/
def stopProcess (sys : Sys) (dies : Bool) (projectDir nm : Str) : Except BgErr Unit × Sys :=
  let pidFile := pidFileName projectDir nm
  match lookupF sys.files pidFile with
  | none => (.error (.notFound nm), sys)
  | some content =>
    let pid? := parseIntJS (jsTrim content)
    let alive1 := match pid? with
      | some p => if dies then sys.alive.filter (fun q => !(q == p)) else sys.alive
      | none => sys.alive
    (.ok (), { sys with files := eraseFile sys.files pidFile, alive := alive1 })

/-- Split a byte stream into newline-terminated chunks; a trailing segment
without a newline is also a chunk.  `tail -n k` prints the last k chunks. -/
def chunksNl : Str → List Str
  | [] => []
  | c :: cs =>
    if c = '\n' then ['\n'] :: chunksNl cs
    else match chunksNl cs with
      | [] => [[c]]
      | l :: rest => (c :: l) :: rest

def lastN (n : Nat) (l : List α) : List α := l.drop (l.length - n)

/-- Output of `tail -n n file` on the given content. -/
def tailOutput (n : Nat) (content : Str) : Str := (lastN n (chunksNl content)).flatten

/-- readLogs(projectDir, name, lines): existsSync check then tail -n. -/
def readLogs (sys : Sys) (projectDir nm : Str) (lines : Nat) : Except BgErr Str :=
  match lookupF sys.files (logFileName projectDir nm) with
  | none => .error (.logNotFound nm)
  | some content => .ok (tailOutput lines content)

/-- The background-logs tool handler: readLogs(ctx.cwd, name, lines ?? 50). -/
def backgroundLogsExec (sys : Sys) (projectDir nm : Str) (lines : Option Nat) :
    Except BgErr Str :=
  readLogs sys projectDir nm (lines.getD 50)

/-- One spawnSync call site of the status-refresh path, with the timeout
option it passes (none = no timeout option given). -/
structure DiagCall where
  exe : Str
  timeoutMs : Option Nat
deriving DecidableEq

/-- spawnSync("pgrep", ["-P", pid], { encoding: "utf8", timeout: 500 }) in
getChildPids. -/
def pgrepCall : DiagCall := { exe := "pgrep".toList, timeoutMs := some 500 }

/-- spawnSync("lsof", [...], { encoding: "utf8", timeout: 500 }) in
getListeningPorts. -/
def lsofCall : DiagCall := { exe := "lsof".toList, timeoutMs := some 500 }

/-- spawnSync("tail", ["-n", lines, logFile], { encoding: "utf8" }) in
readLogs: no timeout option. -/
def tailCall : DiagCall := { exe := "tail".toList, timeoutMs := none }

/-- The external diagnostic subprocess calls reachable from updateStatus
(which runs at session_start / turn_start / turn_end): getListeningPorts
runs pgrep (via getChildPids) and lsof, and the log-preview widget runs
readLogs and hence tail. -/
def statusRefreshCalls : List DiagCall := [pgrepCall, lsofCall, tailCall]

/-- The state-independent face of a record: everything but the probed flag. -/
def staticPart (r : ProcessInfo) : Str × Option Int × Str := (r.name, r.pid, r.logFile)

/-- Empty store with a readable directory. -/
def sysE : Sys := { files := [], alive := [], fds := [], spawned := [], dirReadable := true }

/- Concrete states used to instantiate the theorems. -/

def pW : Str := "/p".toList

def nW : Str := "x".toList

def cmdW : Str := "sleep 99".toList

def cmd2W : Str := "sleep 100".toList

/-- One tracked, alive process named x in scope /p. -/
def sysW : Sys :=
  { files := [(pidFileName pW nW, natDecimal 7)], alive := [(7 : Int)], fds := [],
    spawned := [], dirReadable := true }

/-- The record sysW's listing shows for x. -/
def rW : ProcessInfo :=
  { name := nW, pid := some 7, running := true,
    logFile := tmpDir ++ (scopePref pW ++ nW ++ ".log".toList) }

/-- State right after a successful start of x in /p from the empty store. -/
def sys1W : Sys := (startProcess sysE (some 7) pW nW cmdW none).2

def rStartW : ProcessInfo :=
  { name := nW, pid := some 7, running := true, logFile := tmpDir ++ logFileName pW nW }

/-- The two colliding scopes of the C3 counterexample: encodeProject maps both
"/a-b" and "/a/b" to "a-b". -/
def s1X : Str := "/a-b".toList

def s2X : Str := "/a/b".toList

/-- State after starting x under scope /a/b from the empty store. -/
def sysX : Sys := (startProcess sysE (some 7) s2X nW cmdW none).2

/-- A 100-line log: lines "0" .. "99", each newline-terminated. -/
def logLinesC : List Str := (List.range 100).map natDecimal

def logC : Str := (logLinesC.map (fun m => m ++ ['\n'])).flatten

/-- Store holding that 100-line log for process x of scope /p. -/
def sysLog : Sys :=
  { files := [(logFileName pW nW, logC)], alive := [], fds := [], spawned := [],
    dirReadable := true }

/- Association-list store lemmas. -/

theorem lookupF_setFile (fs : Files) (k v f : Str) :
    lookupF (setFile fs k v) f = if f = k then some v else lookupF fs f := by
  induction fs with
  | nil =>
    simp only [setFile, lookupF]
    by_cases h : k = f
    · subst h; simp
    · rw [if_neg h, if_neg (fun hh => h hh.symm)]
  | cons p fs ih =>
    obtain ⟨k0, v0⟩ := p
    simp only [setFile]
    by_cases h0 : k0 = k
    · subst h0
      simp only [lookupF]
      by_cases h : k0 = f
      · rw [if_pos h, if_pos h.symm]
      · rw [if_neg h, if_neg (fun hh => h hh.symm), if_neg h]
    · rw [if_neg h0]
      simp only [lookupF]
      by_cases h : k0 = f
      · subst h
        rw [if_pos rfl, if_neg (fun hh => h0 hh), if_pos rfl]
      · rw [if_neg h, ih, if_neg h]

theorem lookupF_setFile_self (fs : Files) (k v : Str) :
    lookupF (setFile fs k v) k = some v := by
  simp [lookupF_setFile]

theorem lookupF_setFile_ne (fs : Files) (k v f : Str) (h : f ≠ k) :
    lookupF (setFile fs k v) f = lookupF fs f := by
  simp [lookupF_setFile, h]

theorem lookupF_eraseFile (fs : Files) (k f : Str) :
    lookupF (eraseFile fs k) f = if f = k then none else lookupF fs f := by
  induction fs with
  | nil =>
    simp only [eraseFile, lookupF]
    by_cases h : f = k
    · rw [if_pos h]
    · rw [if_neg h]
  | cons p fs ih =>
    obtain ⟨k0, v0⟩ := p
    simp only [eraseFile]
    by_cases h0 : k0 = k
    · subst h0
      rw [if_pos rfl, ih]
      simp only [lookupF]
      by_cases h : f = k0
      · rw [if_pos h, if_pos h]
      · rw [if_neg h, if_neg h, if_neg (fun hh => h hh.symm)]
    · rw [if_neg h0]
      simp only [lookupF]
      by_cases h : k0 = f
      · subst h
        rw [if_pos rfl, if_neg (fun hh => h0 hh), if_pos rfl]
      · rw [if_neg h, ih, if_neg h]

theorem keys_setFile (fs : Files) (k v : Str) :
    (setFile fs k v).map Prod.fst = fs.map Prod.fst
      ∨ (setFile fs k v).map Prod.fst = fs.map Prod.fst ++ [k] := by
  induction fs with
  | nil => right; simp [setFile]
  | cons p fs ih =>
    obtain ⟨k0, v0⟩ := p
    simp only [setFile]
    by_cases h0 : k0 = k
    · subst h0; left; simp
    · rw [if_neg h0]
      rcases ih with h | h
      · left; simp [h]
      · right; simp [h]

theorem keys_eraseFile_not_mem (fs : Files) (k : Str) :
    k ∉ (eraseFile fs k).map Prod.fst := by
  induction fs with
  | nil => simp [eraseFile]
  | cons p fs ih =>
    obtain ⟨k0, v0⟩ := p
    simp only [eraseFile]
    by_cases h0 : k0 = k
    · rw [if_pos h0]; exact ih
    · rw [if_neg h0]
      intro hmem
      simp only [List.map_cons, List.mem_cons] at hmem
      rcases hmem with h | h
      · exact h0 h.symm
      · exact ih h

theorem mem_keys_eraseFile (fs : Files) (k f : Str)
    (h : f ∈ (eraseFile fs k).map Prod.fst) : f ∈ fs.map Prod.fst := by
  induction fs with
  | nil => simp [eraseFile] at h
  | cons p fs ih =>
    obtain ⟨k0, v0⟩ := p
    simp only [eraseFile] at h
    by_cases h0 : k0 = k
    · rw [if_pos h0] at h
      simp only [List.map_cons, List.mem_cons]
      right; exact ih h
    · rw [if_neg h0] at h
      simp only [List.map_cons, List.mem_cons] at h ⊢
      rcases h with h | h
      · left; exact h
      · right; exact ih h

theorem mem_keys_setFile_self (fs : Files) (k v : Str) :
    k ∈ (setFile fs k v).map Prod.fst := by
  induction fs with
  | nil => simp [setFile]
  | cons p fs ih =>
    obtain ⟨k0, v0⟩ := p
    simp only [setFile]
    by_cases h0 : k0 = k
    · rw [if_pos h0]; simp
    · rw [if_neg h0]
      simp only [List.map_cons, List.mem_cons]
      right; exact ih

/- Decimal printing / parseInt roundtrip. -/

theorem isDig_digitChar (d : Nat) (h : d < 10) : isDig (digitChar d) = true := by
  interval_cases d <;> decide

theorem charVal_digitChar (d : Nat) (h : d < 10) : charVal (digitChar d) = d := by
  interval_cases d <;> decide

theorem digitsVal_append_one (ds : Str) (c : Char) :
    digitsVal (ds ++ [c]) = 10 * digitsVal ds + charVal c := by
  simp [digitsVal, List.foldl_append]

theorem natDecimalAux_spec (fuel : Nat) :
    ∀ n, n < fuel →
      natDecimalAux fuel n ≠ []
        ∧ (∀ c ∈ natDecimalAux fuel n, isDig c = true)
        ∧ digitsVal (natDecimalAux fuel n) = n := by
  induction fuel with
  | zero => intro n h; omega
  | succ fuel ih =>
    intro n h
    by_cases h10 : n < 10
    · refine ⟨by simp [natDecimalAux, h10], ?_, ?_⟩
      · intro c hc
        simp [natDecimalAux, h10] at hc
        subst hc
        exact isDig_digitChar n h10
      · simp [natDecimalAux, h10, digitsVal, charVal_digitChar n h10]
    · have hdiv : n / 10 < fuel := by
        have h1 : n / 10 < n := Nat.div_lt_self (by omega) (by omega)
        omega
      obtain ⟨hne, hall, hval⟩ := ih (n / 10) hdiv
      refine ⟨by simp [natDecimalAux, h10], ?_, ?_⟩
      · intro c hc
        simp [natDecimalAux, h10] at hc
        rcases hc with hc | hc
        · exact hall c hc
        · subst hc
          exact isDig_digitChar (n % 10) (Nat.mod_lt n (by omega))
      · rw [show natDecimalAux (fuel + 1) n
              = natDecimalAux fuel (n / 10) ++ [digitChar (n % 10)] by
            simp [natDecimalAux, h10]]
        rw [digitsVal_append_one, hval, charVal_digitChar (n % 10) (Nat.mod_lt n (by omega))]
        omega

theorem natDecimal_ne_nil (n : Nat) : natDecimal n ≠ [] :=
  (natDecimalAux_spec (n + 1) n (by omega)).1

theorem natDecimal_all_digits (n : Nat) : ∀ c ∈ natDecimal n, isDig c = true :=
  (natDecimalAux_spec (n + 1) n (by omega)).2.1

theorem digitsVal_natDecimal (n : Nat) : digitsVal (natDecimal n) = n :=
  (natDecimalAux_spec (n + 1) n (by omega)).2.2

theorem isDig_not_ws (c : Char) (h : isDig c = true) : isWsChar c = false := by
  cases hw : isWsChar c with
  | false => rfl
  | true =>
    exfalso
    simp only [isWsChar, Bool.or_eq_true, decide_eq_true_eq] at hw
    rcases hw with ((hw | hw) | hw) | hw <;> subst hw <;> exact absurd h (by decide)

theorem jsTrim_of_digits (l : Str) (hne : l ≠ []) (hall : ∀ c ∈ l, isDig c = true) :
    jsTrim l = l := by
  obtain ⟨c, cs, rfl⟩ := List.exists_cons_of_ne_nil hne
  have h1 : (c :: cs).dropWhile isWsChar = c :: cs := by
    simp [List.dropWhile_cons, isDig_not_ws c (hall c (by simp))]
  rw [jsTrim, h1]
  have hner : (c :: cs).reverse ≠ [] := by simp
  obtain ⟨d, ds, hds⟩ := List.exists_cons_of_ne_nil hner
  have hd : d ∈ c :: cs := by
    have hm : d ∈ (c :: cs).reverse := by rw [hds]; simp
    rw [List.mem_reverse] at hm
    exact hm
  rw [hds, List.dropWhile_cons, isDig_not_ws d (hall d hd)]
  simp [← hds]

theorem takeWhile_of_all (p : Char → Bool) (l : Str) (hall : ∀ c ∈ l, p c = true) :
    l.takeWhile p = l := by
  induction l with
  | nil => rfl
  | cons c cs ih =>
    rw [List.takeWhile_cons, hall c (by simp)]
    simp [ih (fun x hx => hall x (by simp [hx]))]

theorem parseDigits_natDecimal (n : Nat) : parseDigits (natDecimal n) = some n := by
  rw [parseDigits, takeWhile_of_all isDig (natDecimal n) (natDecimal_all_digits n),
    if_neg (natDecimal_ne_nil n), digitsVal_natDecimal]

theorem parse_roundtrip (n : Nat) : parseIntJS (jsTrim (natDecimal n)) = some (n : Int) := by
  rw [jsTrim_of_digits (natDecimal n) (natDecimal_ne_nil n) (natDecimal_all_digits n)]
  obtain ⟨c, cs, hc⟩ := List.exists_cons_of_ne_nil (natDecimal_ne_nil n)
  have hcd : isDig c = true := natDecimal_all_digits n c (by rw [hc]; simp)
  have hcm : c ≠ '-' := by intro h; subst h; simp [isDig] at hcd
  have hcp : c ≠ '+' := by intro h; subst h; simp [isDig] at hcd
  rw [hc]
  simp only [parseIntJS]
  rw [if_neg hcm, if_neg hcp, ← hc, parseDigits_natDecimal]
  rfl

/- Filename structure lemmas. -/

theorem scopePref_concat (projectDir : Str) :
    scopePref projectDir = (pidTag ++ encodeProject projectDir) ++ ['-'] := by
  simp [scopePref]

theorem scopePref_getLast? (projectDir : Str) :
    (scopePref projectDir).getLast? = some '-' := by
  rw [scopePref_concat, List.getLast?_append_of_ne_nil _ (by simp)]
  rfl

/-- The slice(prefix.length, -4) of listProcesses recovers the name from a
well-formed pid-file basename. -/
theorem nm_extract (pref nm sfx : Str) (h4 : sfx.length = 4) :
    ((pref ++ nm ++ sfx).take ((pref ++ nm ++ sfx).length - 4)).drop pref.length = nm := by
  have hlen : (pref ++ nm ++ sfx).length - 4 = (pref ++ nm).length := by
    simp only [List.length_append, h4]
    omega
  rw [hlen, show pref ++ nm ++ sfx = (pref ++ nm) ++ sfx from by simp, List.take_left,
    List.drop_left]

/-- A basename with a "-"-terminated scope tag as prefix and ".pid" as suffix
is long enough to contain both disjointly: the tag's trailing dash can never
sit inside the ".pid" suffix. -/
theorem pid_match_length (pref f : Str) (hdash : pref.getLast? = some '-')
    (hpre : pref <+: f) (hsuf : (".pid".toList) <:+ f) :
    pref.length + 4 ≤ f.length := by
  by_contra hlt
  obtain ⟨t, ht⟩ := hpre
  obtain ⟨a, ha⟩ := hsuf
  have hflen : f.length = a.length + 4 := by rw [← ha]; simp
  have halen : a.length < pref.length := by omega
  have h1 : f.take a.length = a := by
    rw [← ha, List.take_append_eq_append_take, Nat.sub_self, List.take_zero,
      List.append_nil, List.take_length]
  have h2 : f.take a.length = pref.take a.length := by
    rw [← ht, List.take_append_eq_append_take,
      Nat.sub_eq_zero_of_le (Nat.le_of_lt halen), List.take_zero, List.append_nil]
  have haeq : a = pref.take a.length := h1.symm.trans h2
  have hsplit : pref = a ++ pref.drop a.length := by
    have h := List.take_append_drop a.length pref
    rw [← haeq] at h
    exact h.symm
  have hbne : pref.drop a.length ≠ [] := by
    intro hnil
    have hl := congrArg List.length hnil
    simp at hl
    omega
  have hbt : pref.drop a.length ++ t = ".pid".toList := by
    have h3 : a ++ (pref.drop a.length ++ t) = a ++ ".pid".toList := by
      rw [← List.append_assoc, ← hsplit, ht, ← ha]
    exact List.append_cancel_left h3
  have hlast : (pref.drop a.length).getLast? = some '-' := by
    rw [hsplit] at hdash
    rwa [List.getLast?_append_of_ne_nil _ hbne] at hdash
  obtain ⟨hne2, heq2⟩ := List.mem_getLast?_eq_getLast
    (show '-' ∈ (pref.drop a.length).getLast? from hlast)
  have hmem : '-' ∈ pref.drop a.length := by
    rw [heq2]; exact List.getLast_mem hne2
  have hfin : '-' ∈ ".pid".toList := by
    rw [← hbt]
    exact List.mem_append_left _ hmem
  simp at hfin

/-- Any basename passing the listProcesses filter is exactly the pid file of
(scope, extracted name). -/
theorem filter_origin (projectDir f : Str)
    (hpre : (scopePref projectDir).isPrefixOf f = true)
    (hsuf : ((".pid").toList).isSuffixOf f = true) :
    f = pidFileName projectDir
      ((f.take (f.length - 4)).drop (scopePref projectDir).length) := by
  rw [List.isPrefixOf_iff_prefix] at hpre
  rw [List.isSuffixOf_iff_suffix] at hsuf
  have hlen : (scopePref projectDir).length + 4 ≤ f.length :=
    pid_match_length (scopePref projectDir) f (scopePref_getLast? projectDir) hpre hsuf
  obtain ⟨a, ha⟩ := hsuf
  have hflen : f.length = a.length + 4 := by rw [← ha]; simp
  have hatake : f.take (f.length - 4) = a := by
    have h4 : f.length - 4 = a.length := by omega
    rw [h4, ← ha, List.take_append_eq_append_take, Nat.sub_self, List.take_zero,
      List.append_nil, List.take_length]
  have hpa : scopePref projectDir = a.take (scopePref projectDir).length := by
    rw [← hatake, List.take_take, min_eq_left (by omega)]
    exact List.prefix_iff_eq_take.mp hpre
  have haeq : a = scopePref projectDir ++ a.drop (scopePref projectDir).length := by
    have h := List.take_append_drop (scopePref projectDir).length a
    rw [← hpa] at h
    exact h.symm
  rw [pidFileName, hatake, ← haeq]
  exact ha.symm

/-- Two suffixes of equal length of the same list are equal. -/
theorem suffix_eq_of_length (s1 s2 f : Str) (h1 : s1 <:+ f) (h2 : s2 <:+ f)
    (hl : s1.length = s2.length) : s1 = s2 := by
  obtain ⟨a1, ha1⟩ := h1
  obtain ⟨a2, ha2⟩ := h2
  have h : a1 ++ s1 = a2 ++ s2 := by rw [ha1, ha2]
  have hal : a1.length = a2.length := by
    have l1 := congrArg List.length ha1
    have l2 := congrArg List.length ha2
    simp at l1 l2
    omega
  exact (List.append_inj h hal).2

/-- A ".log" basename never passes the ".pid" suffix test. -/
theorem log_not_pid_suffix (base : Str) :
    ((".pid").toList).isSuffixOf (base ++ ".log".toList) = false := by
  cases hs : ((".pid").toList).isSuffixOf (base ++ ".log".toList) with
  | false => rfl
  | true =>
    exfalso
    rw [List.isSuffixOf_iff_suffix] at hs
    have h := suffix_eq_of_length _ _ _ hs (List.suffix_append base (".log".toList)) (by decide)
    simp at h

theorem pidFileName_ne_logFileName (p1 n1 p2 n2 : Str) :
    pidFileName p1 n1 ≠ logFileName p2 n2 := by
  intro h
  have hsuf : ((".pid").toList).isSuffixOf (logFileName p2 n2) = true := by
    rw [← h, pidFileName, List.isSuffixOf_iff_suffix, List.append_assoc]
    exact (List.suffix_append _ _).trans (by rw [← List.append_assoc])
  rw [logFileName, log_not_pid_suffix] at hsuf
  exact Bool.false_ne_true hsuf

/-- The pid file of (scope, nm) passes its own scope's filter. -/
theorem pidFileName_passes (projectDir nm : Str) :
    ((scopePref projectDir).isPrefixOf (pidFileName projectDir nm)
      && ((".pid").toList).isSuffixOf (pidFileName projectDir nm)) = true := by
  rw [Bool.and_eq_true, List.isPrefixOf_iff_prefix, List.isSuffixOf_iff_suffix]
  constructor
  · rw [pidFileName, List.append_assoc]
    exact List.prefix_append _ _
  · rw [pidFileName]
    exact List.suffix_append _ _

/-- Name extraction at the pid file of (scope, nm) gives back nm. -/
theorem pidFileName_extract (projectDir nm : Str) :
    (((pidFileName projectDir nm).take ((pidFileName projectDir nm).length - 4)).drop
      (scopePref projectDir).length) = nm := by
  rw [pidFileName]
  exact nm_extract (scopePref projectDir) nm (".pid".toList) (by decide)

/- tail -n chunk lemmas. -/

theorem chunksNl_line (m t : Str) (hm : '\n' ∉ m) :
    chunksNl (m ++ '\n' :: t) = (m ++ ['\n']) :: chunksNl t := by
  induction m with
  | nil => simp [chunksNl]
  | cons c m' ih =>
    have hc : c ≠ '\n' := by
      intro h; exact hm (by simp [h])
    have hm' : '\n' ∉ m' := by
      intro h; exact hm (by simp [h])
    rw [List.cons_append, chunksNl, if_neg hc, ih hm']
    simp

theorem chunksNl_flatten (ms : List Str) (h : ∀ m ∈ ms, '\n' ∉ m) :
    chunksNl (ms.map (fun m => m ++ ['\n'])).flatten = ms.map (fun m => m ++ ['\n']) := by
  induction ms with
  | nil => simp [chunksNl]
  | cons m ms ih =>
    rw [List.map_cons, List.flatten_cons, List.append_assoc, List.singleton_append,
      chunksNl_line m _ (h m (by simp)), ih (fun x hx => h x (by simp [hx]))]

/- listProcesses congruence helpers. -/

theorem pidFilter_false_of_pre (projectDir f : Str)
    (h : (scopePref projectDir).isPrefixOf f = false) : pidFilter projectDir f = false := by
  simp [pidFilter, h]

theorem pidFilter_log_false (projectDir p2 n2 : Str) :
    pidFilter projectDir (logFileName p2 n2) = false := by
  have h : ((".pid").toList).isSuffixOf (logFileName p2 n2) = false := by
    rw [logFileName]
    exact log_not_pid_suffix (scopePref p2 ++ n2)
  simp only [pidFilter]
  rw [h, Bool.and_false]

/-- Writing a file the scope's filter rejects does not change that scope's
listing (neither the shown names nor the probed records). -/
theorem listProcesses_setFile_notpass (sys : Sys) (projectDir k v : Str)
    (hk : pidFilter projectDir k = false) :
    listProcesses { sys with files := setFile sys.files k v } projectDir
      = listProcesses sys projectDir := by
  cases hdr : sys.dirReadable with
  | false => simp [listProcesses, hdr]
  | true =>
    simp only [listProcesses, hdr, if_pos]
    rcases keys_setFile sys.files k v with hkeys | hkeys
    · rw [hkeys]
      refine List.map_congr_left (fun f hf => ?_)
      have hpass : pidFilter projectDir f = true := (List.mem_filter.mp hf).2
      have hne : f ≠ k := by
        intro h; rw [h] at hpass; rw [hk] at hpass; exact Bool.true_eq_false.mp hpass.symm
      simp [mkRec, lookupF_setFile_ne sys.files k v f hne]
    · rw [hkeys, List.filter_append]
      have hnil : List.filter (pidFilter projectDir) [k] = [] := by
        simp [hk]
      rw [hnil, List.append_nil]
      refine List.map_congr_left (fun f hf => ?_)
      have hpass : pidFilter projectDir f = true := (List.mem_filter.mp hf).2
      have hne : f ≠ k := by
        intro h; rw [h] at hpass; rw [hk] at hpass; exact Bool.true_eq_false.mp hpass.symm
      simp [mkRec, lookupF_setFile_ne sys.files k v f hne]

/-- The static part of a listing (names, pids, log paths) depends only on the
stored files, never on the probed liveness environment. -/
theorem listProcesses_staticPart_env (files : Files) (a1 a2 : List Int)
    (fd1 fd2 : List Str) (sp1 sp2 : List (Nat × Str × Str)) (projectDir : Str) :
    (listProcesses ⟨files, a1, fd1, sp1, true⟩ projectDir).map staticPart
      = (listProcesses ⟨files, a2, fd2, sp2, true⟩ projectDir).map staticPart := by
  simp only [listProcesses, if_pos, List.map_map]
  rfl

/- Operation shape lemmas. -/

theorem start_ok_shape (sys : Sys) (pid : Nat) (projectDir nm cmd : Str) (cwd : Option Str)
    (r : ProcessInfo) (sys2 : Sys)
    (h : startProcess sys (some pid) projectDir nm cmd cwd = (.ok r, sys2)) :
    sys2.files = setFile (setFile sys.files (logFileName projectDir nm) [])
        (pidFileName projectDir nm) (natDecimal pid)
      ∧ sys2.alive = ((pid : Nat) : Int) :: sys.alive
      ∧ sys2.dirReadable = sys.dirReadable
      ∧ sys2.fds = logFileName projectDir nm :: sys.fds
      ∧ (∃ ccwd, sys2.spawned = (pid, cmd, ccwd) :: sys.spawned)
      ∧ r = { name := nm, pid := some ((pid : Nat) : Int), running := true,
              logFile := tmpDir ++ logFileName projectDir nm } := by
  simp only [startProcess] at h
  split at h
  · exact absurd (congrArg Prod.fst h) (by simp)
  · rw [Prod.mk.injEq] at h
    obtain ⟨h1, h2⟩ := h
    rw [← h2]
    refine ⟨rfl, rfl, rfl, rfl, ⟨_, rfl⟩, ?_⟩
    have := congrArg (fun e => match e with
      | Except.ok r => r
      | Except.error _ => r) h1
    simpa using this.symm

theorem start_already_shape (sys : Sys) (spawnPid : Option Nat) (projectDir nm cmd : Str)
    (cwd : Option Str) (nm' : Str) (p? : Option Int) (sys2 : Sys)
    (h : startProcess sys spawnPid projectDir nm cmd cwd
      = (.error (.alreadyRunning nm' p?), sys2)) :
    sys2 = sys := by
  simp only [startProcess] at h
  split at h
  · exact (congrArg Prod.snd h).symm
  · cases spawnPid with
    | none =>
      have h1 := congrArg Prod.fst h
      simp at h1
    | some pid =>
      have h1 := congrArg Prod.fst h
      simp at h1

theorem start_spawnfail_shape (sys : Sys) (projectDir nm cmd : Str) (cwd : Option Str)
    (sys2 : Sys)
    (h : startProcess sys none projectDir nm cmd cwd = (.error .spawnFailed, sys2)) :
    sys2 = { sys with files := setFile sys.files (logFileName projectDir nm) [] } := by
  simp only [startProcess] at h
  split at h
  · have h1 := congrArg Prod.fst h
    simp at h1
  · exact (congrArg Prod.snd h).symm

theorem stop_found_shape (sys : Sys) (dies : Bool) (projectDir nm : Str) (c : Str)
    (h : lookupF sys.files (pidFileName projectDir nm) = some c) :
    ∃ sys2, stopProcess sys dies projectDir nm = (.ok (), sys2)
      ∧ sys2.files = eraseFile sys.files (pidFileName projectDir nm)
      ∧ sys2.fds = sys.fds
      ∧ sys2.spawned = sys.spawned
      ∧ sys2.dirReadable = sys.dirReadable := by
  simp only [stopProcess, h]
  exact ⟨_, rfl, rfl, rfl, rfl, rfl⟩

theorem stop_missing_shape (sys : Sys) (dies : Bool) (projectDir nm : Str)
    (h : lookupF sys.files (pidFileName projectDir nm) = none) :
    stopProcess sys dies projectDir nm = (.error (.notFound nm), sys) := by
  simp only [stopProcess, h]

/-- The record listProcesses derives from the pid file of (scope, nm) whose
content is the decimal print of pid. -/
theorem mkRec_pidFile (sys : Sys) (projectDir nm : Str) (pid : Nat)
    (hlook : lookupF sys.files (pidFileName projectDir nm) = some (natDecimal pid)) :
    mkRec sys projectDir (pidFileName projectDir nm)
      = { name := nm, pid := some ((pid : Nat) : Int),
          running := decide (((pid : Nat) : Int) ∈ sys.alive),
          logFile := tmpDir ++ (scopePref projectDir ++ nm ++ ".log".toList) } := by
  simp only [mkRec, pidFileName_extract, hlook, Option.some_bind, parse_roundtrip]
  rfl

/- Claim theorems. -/

/-- C1: after a successful start(n, command, s) whose spawned process is still
alive (it is a member of whatever the probe environment has become), an
immediately following start(n, command2, s) in the same scope fails with the
"already running" error and changes nothing: no log truncation, no pid file
write, no spawn ledger entry, i.e. no second process. -/
theorem start_twice_already_running (sys : Sys) (pid1 : Nat)
    (projectDir nm cmd1 cmd2 : Str) (cwd1 cwd2 : Option Str) (r : ProcessInfo)
    (sys1 : Sys) (alive' : List Int) (pid2 : Option Nat)
    (h1 : startProcess sys (some pid1) projectDir nm cmd1 cwd1 = (.ok r, sys1))
    (h2 : ((pid1 : Nat) : Int) ∈ alive') :
    ∃ p?, startProcess { sys1 with alive := alive', dirReadable := true } pid2
        projectDir nm cmd2 cwd2
      = (.error (.alreadyRunning nm p?), { sys1 with alive := alive', dirReadable := true }) := by
  obtain ⟨hfiles, _, _, _, _, _⟩ := start_ok_shape sys pid1 projectDir nm cmd1 cwd1 r sys1 h1
  have hlook : lookupF (Sys.mk sys1.files alive' sys1.fds sys1.spawned true).files
      (pidFileName projectDir nm) = some (natDecimal pid1) := by
    show lookupF sys1.files (pidFileName projectDir nm) = some (natDecimal pid1)
    rw [hfiles, lookupF_setFile_self]
  have hmemk : pidFileName projectDir nm ∈ sys1.files.map Prod.fst := by
    rw [hfiles]
    exact mem_keys_setFile_self _ _ _
  have hmemf : pidFileName projectDir nm
      ∈ (sys1.files.map Prod.fst).filter (pidFilter projectDir) :=
    List.mem_filter.mpr ⟨hmemk, pidFileName_passes projectDir nm⟩
  have hrec : mkRec { sys1 with alive := alive', dirReadable := true } projectDir
      (pidFileName projectDir nm)
      ∈ listProcesses { sys1 with alive := alive', dirReadable := true } projectDir := by
    simp only [listProcesses, if_pos]
    exact List.mem_map_of_mem _ hmemf
  have hpred : ((mkRec { sys1 with alive := alive', dirReadable := true } projectDir
      (pidFileName projectDir nm)).name == nm
      && (mkRec { sys1 with alive := alive', dirReadable := true } projectDir
        (pidFileName projectDir nm)).running) = true := by
    rw [mkRec_pidFile _ projectDir nm pid1 hlook]
    simp [h2]
  have hsome : ((listProcesses { sys1 with alive := alive', dirReadable := true } projectDir).find?
      (fun p => p.name == nm && p.running)).isSome :=
    List.find?_isSome.mpr ⟨_, hrec, hpred⟩
  obtain ⟨ex, hex⟩ := Option.isSome_iff_exists.mp hsome
  refine ⟨ex.pid, ?_⟩
  simp only [startProcess, hex]

/-- C1 witness: concretely, start x in /p from the empty store with pid 7,
then a second start of x in /p is rejected as already running with no state
change. -/
theorem start_twice_already_running_witness :
    ∃ p?, startProcess { sys1W with alive := [(7 : Int)], dirReadable := true } (some 9)
        pW nW cmd2W none
      = (.error (.alreadyRunning nW p?), { sys1W with alive := [(7 : Int)], dirReadable := true }) :=
  start_twice_already_running sysE 7 pW nW cmdW cmd2W none none rStartW sys1W
    [(7 : Int)] (some 9) (by rfl) (by decide)

/-- C10: whenever startProcess rejects with the already-running error, the
returned state is byte-for-byte the input state — in particular the existing
pid file and log file are untouched, because the uniqueness check runs before
the log file would be opened with truncation. -/
theorem already_running_rejection_pure (sys : Sys) (spawnPid : Option Nat)
    (projectDir nm cmd : Str) (cwd : Option Str) (nm' : Str) (p? : Option Int) (sys2 : Sys)
    (h : startProcess sys spawnPid projectDir nm cmd cwd
      = (.error (.alreadyRunning nm' p?), sys2)) :
    sys2 = sys
      ∧ lookupF sys2.files (pidFileName projectDir nm) = lookupF sys.files (pidFileName projectDir nm)
      ∧ lookupF sys2.files (logFileName projectDir nm) = lookupF sys.files (logFileName projectDir nm) := by
  have heq := start_already_shape sys spawnPid projectDir nm cmd cwd nm' p? sys2 h
  subst heq
  exact ⟨rfl, rfl, rfl⟩

/-- C10 witness: on a store holding a live x in /p, a second start of x
returns the already-running error and the state is returned unchanged. -/
theorem already_running_rejection_pure_witness :
    (startProcess sysW (some 9) pW nW cmd2W none).2 = sysW :=
  (already_running_rejection_pure sysW (some 9) pW nW cmd2W none nW (some 7)
    (startProcess sysW (some 9) pW nW cmd2W none).2 (by rfl)).1

/-- C7: when the detached spawn yields no pid and no live same-name record
blocked the launch, startProcess raises the "Failed to start" error, closes
the log file descriptor it had opened (fds are as before), writes no pid
file, spawns nothing, and leaves every scope's listing unchanged; the only
trace is the truncated log file. -/
theorem spawn_failure_clean (sys : Sys) (projectDir nm cmd : Str) (cwd : Option Str)
    (hfind : (listProcesses sys projectDir).find? (fun p => p.name == nm && p.running) = none) :
    startProcess sys none projectDir nm cmd cwd
      = (.error .spawnFailed,
         { sys with files := setFile sys.files (logFileName projectDir nm) [] })
      ∧ lookupF (setFile sys.files (logFileName projectDir nm) []) (pidFileName projectDir nm)
          = lookupF sys.files (pidFileName projectDir nm)
      ∧ ∀ projectDir2,
          listProcesses { sys with files := setFile sys.files (logFileName projectDir nm) [] }
            projectDir2
          = listProcesses sys projectDir2 := by
  refine ⟨?_, ?_, ?_⟩
  · simp only [startProcess, hfind]
  · exact lookupF_setFile_ne sys.files (logFileName projectDir nm) []
      (pidFileName projectDir nm) (pidFileName_ne_logFileName projectDir nm projectDir nm)
  · intro projectDir2
    exact listProcesses_setFile_notpass sys projectDir2 (logFileName projectDir nm) []
      (pidFilter_log_false projectDir2 projectDir nm)

/-- C7 witness: a failed spawn on the empty store leaves no pid file for x. -/
theorem spawn_failure_clean_witness :
    lookupF (setFile sysE.files (logFileName pW nW) []) (pidFileName pW nW)
      = lookupF sysE.files (pidFileName pW nW) :=
  (spawn_failure_clean sysE pW nW cmdW none (by rfl)).2.1

/-- C5: when no pid file exists for the name in this scope, stopProcess fails
with the "not found" error and changes nothing; a second call returns the
same error on the same unchanged state. -/
theorem stop_missing_notfound_idempotent (sys : Sys) (dies dies' : Bool)
    (projectDir nm : Str)
    (h : lookupF sys.files (pidFileName projectDir nm) = none) :
    stopProcess sys dies projectDir nm = (.error (.notFound nm), sys)
      ∧ stopProcess ((stopProcess sys dies projectDir nm).2) dies' projectDir nm
        = (.error (.notFound nm), sys) := by
  have h1 := stop_missing_shape sys dies projectDir nm h
  refine ⟨h1, ?_⟩
  rw [h1]
  exact stop_missing_shape sys dies' projectDir nm h

/-- C5 witness: stopping the never-started x on the empty store, twice. -/
theorem stop_missing_notfound_idempotent_witness :
    stopProcess sysE true pW nW = (.error (.notFound nW), sysE)
      ∧ stopProcess ((stopProcess sysE true pW nW).2) false pW nW
        = (.error (.notFound nW), sysE) :=
  stop_missing_notfound_idempotent sysE true false pW nW (by rfl)

/-- C4: when the pid file exists, stopProcess succeeds and deletes it no
matter whether the SIGTERM has any effect (dies is arbitrary and signal
failure is swallowed): afterwards the pid file is gone, the log file content
is exactly as before, fds and the spawn ledger are untouched, and no record
named nm remains in the scope's listing. -/
theorem stop_unconditional_removal (sys : Sys) (dies : Bool) (projectDir nm : Str)
    (c : Str) (h : lookupF sys.files (pidFileName projectDir nm) = some c) :
    ∃ sys2, stopProcess sys dies projectDir nm = (.ok (), sys2)
      ∧ lookupF sys2.files (pidFileName projectDir nm) = none
      ∧ lookupF sys2.files (logFileName projectDir nm)
          = lookupF sys.files (logFileName projectDir nm)
      ∧ sys2.fds = sys.fds
      ∧ sys2.spawned = sys.spawned
      ∧ ∀ r ∈ listProcesses sys2 projectDir, r.name ≠ nm := by
  obtain ⟨sys2, heq, hfiles, hfds, hsp, hdr⟩ := stop_found_shape sys dies projectDir nm c h
  refine ⟨sys2, heq, ?_, ?_, hfds, hsp, ?_⟩
  · rw [hfiles, lookupF_eraseFile]
    simp
  · rw [hfiles, lookupF_eraseFile,
      if_neg (fun hh => pidFileName_ne_logFileName projectDir nm projectDir nm hh.symm)]
  · intro r hr hname
    cases hdr2 : sys2.dirReadable with
    | false => simp [listProcesses, hdr2] at hr
    | true =>
      simp only [listProcesses, hdr2, if_pos, List.mem_map, List.mem_filter] at hr
      obtain ⟨f, ⟨hfk, hfp⟩, hrec⟩ := hr
      rw [pidFilter, Bool.and_eq_true] at hfp
      have hforig := filter_origin projectDir f hfp.1 hfp.2
      have hex : (f.take (f.length - 4)).drop (scopePref projectDir).length = nm := by
        rw [← hrec] at hname
        simpa [mkRec] using hname
      rw [hex] at hforig
      rw [hfiles, hforig] at hfk
      exact keys_eraseFile_not_mem sys.files (pidFileName projectDir nm)
        (List.mem_map.mpr hfk)

/-- C4 witness: stopping the live x in /p removes its pid file. -/
theorem stop_unconditional_removal_witness :
    (stopProcess sysW true pW nW).1 = .ok ()
      ∧ lookupF (stopProcess sysW true pW nW).2.files (pidFileName pW nW) = none := by
  obtain ⟨sys2, heq, hnone, _⟩ :=
    stop_unconditional_removal sysW true pW nW (natDecimal 7) (by rfl)
  rw [heq]
  exact ⟨rfl, hnone⟩

/-- C9: listProcesses is total: when the store directory cannot be read it
returns the empty sequence instead of raising, whatever the rest of the state
is (its Lean type, a plain List, shows no error can propagate). -/
theorem list_total_unreadable (files : Files) (alive : List Int) (fds : List Str)
    (sp : List (Nat × Str × Str)) (scope : Str) :
    listProcesses ⟨files, alive, fds, sp, false⟩ scope = [] := by
  simp [listProcesses]

/-- C6: liveness is never persisted.  (1) The stored part of a listing
(names, pids, log paths) is identical across any change of the probe
environment: running is not read from disk.  (2) Every listed record's
running flag is exactly the call-time signal-probe of its call-time-parsed
pid, with any parse failure counting as not alive.  (3) What start writes to
the pid file is exactly the decimal pid — no liveness flag is stored. -/
theorem liveness_never_cached :
    (∀ (files : Files) (a1 a2 : List Int) (fd1 fd2 : List Str)
        (sp1 sp2 : List (Nat × Str × Str)) (scope : Str),
      (listProcesses ⟨files, a1, fd1, sp1, true⟩ scope).map staticPart
        = (listProcesses ⟨files, a2, fd2, sp2, true⟩ scope).map staticPart)
      ∧ (∀ (sys : Sys) (scope : Str), ∀ r ∈ listProcesses sys scope,
          r.running = runningProbe r.pid sys.alive)
      ∧ (∀ (sys : Sys) (pid : Nat) (projectDir nm cmd : Str) (cwd : Option Str)
          (r : ProcessInfo) (sys2 : Sys),
          startProcess sys (some pid) projectDir nm cmd cwd = (.ok r, sys2) →
          lookupF sys2.files (pidFileName projectDir nm) = some (natDecimal pid)) := by
  refine ⟨?_, ?_, ?_⟩
  · intro files a1 a2 fd1 fd2 sp1 sp2 scope
    exact listProcesses_staticPart_env files a1 a2 fd1 fd2 sp1 sp2 scope
  · intro sys scope r hr
    cases hdr : sys.dirReadable with
    | false => simp [listProcesses, hdr] at hr
    | true =>
      simp only [listProcesses, hdr, if_pos, List.mem_map] at hr
      obtain ⟨f, _, hrec⟩ := hr
      rw [← hrec]
      simp [mkRec]
  · intro sys pid projectDir nm cmd cwd r sys2 h
    obtain ⟨hfiles, _, _, _, _, _⟩ :=
      start_ok_shape sys pid projectDir nm cmd cwd r sys2 h
    rw [hfiles, lookupF_setFile_self]

/-- C6 witness: the record shown for x in sysW has its running flag equal to
the call-time probe of its parsed pid. -/
theorem liveness_never_cached_witness :
    rW.running = runningProbe rW.pid sysW.alive :=
  liveness_never_cached.2.1 sysW pW rW (by decide)

/-- C2 counterexample: on a 100-line log, logs with maxLines = 10 returns
exactly the bare last 10 lines — no truncation indicator, no counts of
omitted content — and the tool call without a line limit does not return the
full log: it silently defaults to the last 50 lines. -/
theorem logs_truncation_counterexample :
    readLogs sysLog pW nW 10
      = .ok ((((logLinesC.drop 90).map (fun m => m ++ ['\n']))).flatten)
      ∧ backgroundLogsExec sysLog pW nW none
        = .ok ((((logLinesC.drop 50).map (fun m => m ++ ['\n']))).flatten)
      ∧ (((logLinesC.drop 50).map (fun m => m ++ ['\n']))).flatten ≠ logC := by
  refine ⟨by rfl, by rfl, by decide⟩

/-- C2 amended: readLogs on an existing log of newline-terminated lines
returns exactly the last maxLines lines, silently — no truncation marker is
added — and the tool-level call with no line limit is readLogs with the
default of 50 lines, not a full read. -/
theorem logs_tail_exact (sys : Sys) (projectDir nm : Str) (ms : List Str) (k : Nat)
    (h1 : lookupF sys.files (logFileName projectDir nm)
      = some ((ms.map (fun m => m ++ ['\n'])).flatten))
    (h2 : ∀ m ∈ ms, '\n' ∉ m) :
    readLogs sys projectDir nm k
      = .ok (((ms.drop (ms.length - k)).map (fun m => m ++ ['\n'])).flatten)
      ∧ backgroundLogsExec sys projectDir nm none = readLogs sys projectDir nm 50 := by
  constructor
  · simp only [readLogs, h1]
    rw [tailOutput, chunksNl_flatten ms h2, lastN, List.length_map, List.map_drop]
  · rfl

/-- C2 amended witness: the 100-line log with maxLines 10 yields lines
90 .. 99 and the defaulted call equals an explicit 50-line call. -/
theorem logs_tail_exact_witness :
    readLogs sysLog pW nW 10
      = .ok (((logLinesC.drop (logLinesC.length - 10)).map (fun m => m ++ ['\n'])).flatten)
      ∧ backgroundLogsExec sysLog pW nW none = readLogs sysLog pW nW 50 :=
  logs_tail_exact sysLog pW nW logLinesC 10 (by rfl) (by decide)

/-- C8 counterexample: not every external diagnostic subprocess on the
status-refresh path carries a timeout — the tail invocation of readLogs,
reached from updateStatus's log-preview widget, passes no timeout option. -/
theorem status_refresh_timeout_counterexample :
    tailCall ∈ statusRefreshCalls ∧ tailCall.timeoutMs = none := by
  refine ⟨by simp [statusRefreshCalls], rfl⟩

/-- C8 amended: of the external diagnostic subprocesses on the status-refresh
path, pgrep and lsof carry a 500 ms timeout, while tail carries none (and the
signal probe is a direct process.kill syscall, not a subprocess, so no
timeout option applies to it). -/
theorem status_refresh_timeouts (c : DiagCall) (hc : c ∈ statusRefreshCalls) :
    (c = pgrepCall ∨ c = lsofCall → c.timeoutMs = some 500)
      ∧ (c = tailCall → c.timeoutMs = none) := by
  constructor
  · rintro (rfl | rfl) <;> rfl
  · rintro rfl
    rfl

/-- C8 amended witness: instantiated at the tail call. -/
theorem status_refresh_timeouts_witness : tailCall.timeoutMs = none :=
  (status_refresh_timeouts tailCall (by simp [statusRefreshCalls])).2 rfl

/- Scope collision helpers for C3. -/

theorem scopePref_eq_of_pid_eq (s1 s2 nm : Str)
    (h : pidFileName s1 nm = pidFileName s2 nm) : scopePref s1 = scopePref s2 := by
  rw [pidFileName, pidFileName] at h
  exact List.append_cancel_right (List.append_cancel_right h)

theorem scopePref_eq_of_log_eq (s1 s2 nm : Str)
    (h : logFileName s1 nm = logFileName s2 nm) : scopePref s1 = scopePref s2 := by
  rw [logFileName, logFileName] at h
  exact List.append_cancel_right (List.append_cancel_right h)

/-- If the s1 tag is not a prefix of s2's pid file, then the two scopes'
artifacts for the same name are distinct files. -/
theorem files_distinct_of_noncollide (s1 s2 nm : Str)
    (h12 : (scopePref s1).isPrefixOf (pidFileName s2 nm) = false) :
    pidFileName s1 nm ≠ pidFileName s2 nm ∧ logFileName s1 nm ≠ logFileName s2 nm := by
  have hkey : scopePref s1 ≠ scopePref s2 := by
    intro he
    have hp := pidFileName_passes s2 nm
    rw [Bool.and_eq_true] at hp
    rw [← he] at hp
    rw [hp.1] at h12
    simp at h12
  exact ⟨fun h => hkey (scopePref_eq_of_pid_eq s1 s2 nm h),
         fun h => hkey (scopePref_eq_of_log_eq s1 s2 nm h)⟩

theorem pidFilter_own (projectDir nm : Str) :
    pidFilter projectDir (pidFileName projectDir nm) = true :=
  pidFileName_passes projectDir nm

/-- Starting a name in scope s2 whose pid file the s1 filter tag does not
match leaves the static part of s1's listing untouched. -/
theorem scope_isolation_partA (sys : Sys) (s1 s2 nm : Str) (pid : Nat) (cmd : Str)
    (cwd : Option Str) (r : ProcessInfo) (sys2 : Sys)
    (h : startProcess sys (some pid) s2 nm cmd cwd = (.ok r, sys2))
    (hp : (scopePref s1).isPrefixOf (pidFileName s2 nm) = false) :
    (listProcesses sys2 s1).map staticPart = (listProcesses sys s1).map staticPart := by
  obtain ⟨hfiles, halive, hdr, hfds, hsp, hrr⟩ :=
    start_ok_shape sys pid s2 nm cmd cwd r sys2 h
  obtain ⟨f0, a0, fd0, sp0, d0⟩ := sys
  obtain ⟨f2, a2, fd2, sp2, d2⟩ := sys2
  dsimp only at hfiles halive hdr hfds
  subst hfiles
  subst halive
  subst hdr
  cases d2 with
  | false => simp [listProcesses]
  | true =>
    calc (listProcesses ⟨setFile (setFile f0 (logFileName s2 nm) [])
            (pidFileName s2 nm) (natDecimal pid), ((pid : Nat) : Int) :: a0, fd2, sp2, true⟩
            s1).map staticPart
        = (listProcesses ⟨setFile (setFile f0 (logFileName s2 nm) [])
            (pidFileName s2 nm) (natDecimal pid), a0, fd0, sp0, true⟩ s1).map staticPart :=
          listProcesses_staticPart_env _ _ _ _ _ _ _ _
      _ = (listProcesses ⟨setFile f0 (logFileName s2 nm) [], a0, fd0, sp0, true⟩
            s1).map staticPart :=
          congrArg (List.map staticPart)
            (listProcesses_setFile_notpass ⟨setFile f0 (logFileName s2 nm) [], a0, fd0, sp0, true⟩
              s1 (pidFileName s2 nm) (natDecimal pid) (pidFilter_false_of_pre s1 _ hp))
      _ = (listProcesses ⟨f0, a0, fd0, sp0, true⟩ s1).map staticPart :=
          congrArg (List.map staticPart)
            (listProcesses_setFile_notpass ⟨f0, a0, fd0, sp0, true⟩
              s1 (logFileName s2 nm) [] (pidFilter_log_false s1 s2 nm))

theorem listProcesses_true_mk (f : Files) (a : List Int) (fd : List Str)
    (sp : List (Nat × Str × Str)) (projectDir : Str) :
    listProcesses ⟨f, a, fd, sp, true⟩ projectDir
      = ((f.map Prod.fst).filter (pidFilter projectDir)).map
          (mkRec ⟨f, a, fd, sp, true⟩ projectDir) := rfl

/-- With mutually non-colliding scope tags, the same name starts successfully
under both scopes from the empty store and each scope then lists exactly its
own record. -/
theorem scope_isolation_partB (s1 s2 nm : Str) (pid1 pid2 : Nat) (cmd1 cmd2 : Str)
    (h12 : (scopePref s1).isPrefixOf (pidFileName s2 nm) = false)
    (h21 : (scopePref s2).isPrefixOf (pidFileName s1 nm) = false) :
    ∃ r1 sys1 r2 sys2,
      startProcess sysE (some pid1) s2 nm cmd1 none = (.ok r1, sys1)
      ∧ startProcess sys1 (some pid2) s1 nm cmd2 none = (.ok r2, sys2)
      ∧ (listProcesses sys2 s1).map (fun r => r.name) = [nm]
      ∧ (listProcesses sys2 s2).map (fun r => r.name) = [nm] := by
  obtain ⟨hpp, hll⟩ := files_distinct_of_noncollide s1 s2 nm h12
  have hpl11 : pidFileName s1 nm ≠ logFileName s1 nm := pidFileName_ne_logFileName s1 nm s1 nm
  have hpl12 : pidFileName s1 nm ≠ logFileName s2 nm := pidFileName_ne_logFileName s1 nm s2 nm
  have hpl21 : pidFileName s2 nm ≠ logFileName s1 nm := pidFileName_ne_logFileName s2 nm s1 nm
  have hpl22 : pidFileName s2 nm ≠ logFileName s2 nm := pidFileName_ne_logFileName s2 nm s2 nm
  have hfa : setFile (setFile sysE.files (logFileName s2 nm) []) (pidFileName s2 nm)
        (natDecimal pid1)
      = [(logFileName s2 nm, []), (pidFileName s2 nm, natDecimal pid1)] := by
    show setFile [(logFileName s2 nm, [])] (pidFileName s2 nm) (natDecimal pid1) = _
    simp only [setFile]
    rw [if_neg (fun hh => hpl22 hh.symm)]
  have hstep1 : setFile [(logFileName s2 nm, []), (pidFileName s2 nm, natDecimal pid1)]
        (logFileName s1 nm) []
      = [(logFileName s2 nm, []), (pidFileName s2 nm, natDecimal pid1),
         (logFileName s1 nm, [])] := by
    simp only [setFile]
    rw [if_neg (fun hh => hll hh.symm), if_neg hpl21]
  have hstep2 : setFile [(logFileName s2 nm, []), (pidFileName s2 nm, natDecimal pid1),
        (logFileName s1 nm, [])] (pidFileName s1 nm) (natDecimal pid2)
      = [(logFileName s2 nm, []), (pidFileName s2 nm, natDecimal pid1),
         (logFileName s1 nm, []), (pidFileName s1 nm, natDecimal pid2)] := by
    simp only [setFile]
    rw [if_neg (fun hh => hpl12 hh.symm), if_neg (fun hh => hpp hh.symm),
      if_neg (fun hh => hpl11 hh.symm)]
  refine ⟨{ name := nm, pid := some ((pid1 : Nat) : Int), running := true,
            logFile := tmpDir ++ logFileName s2 nm },
          ⟨setFile (setFile sysE.files (logFileName s2 nm) []) (pidFileName s2 nm)
             (natDecimal pid1), [((pid1 : Nat) : Int)], [logFileName s2 nm],
           [(pid1, cmd1, s2)], true⟩,
          { name := nm, pid := some ((pid2 : Nat) : Int), running := true,
            logFile := tmpDir ++ logFileName s1 nm },
          ⟨setFile (setFile (setFile (setFile sysE.files (logFileName s2 nm) [])
              (pidFileName s2 nm) (natDecimal pid1)) (logFileName s1 nm) [])
             (pidFileName s1 nm) (natDecimal pid2),
           [((pid2 : Nat) : Int), ((pid1 : Nat) : Int)],
           [logFileName s1 nm, logFileName s2 nm],
           [(pid2, cmd2, s1), (pid1, cmd1, s2)], true⟩,
          rfl, ?_, ?_, ?_⟩
  · have hlist1 : listProcesses
        ⟨setFile (setFile sysE.files (logFileName s2 nm) []) (pidFileName s2 nm)
           (natDecimal pid1), [((pid1 : Nat) : Int)], [logFileName s2 nm],
         [(pid1, cmd1, s2)], true⟩ s1 = [] := by
      rw [listProcesses_true_mk, hfa]
      simp [pidFilter_log_false s1 s2 nm, pidFilter_false_of_pre s1 _ h12]
    simp only [startProcess]
    rw [hlist1]
    rfl
  · rw [listProcesses_true_mk, hfa, hstep1, hstep2]
    simp [pidFilter_log_false s1 s2 nm, pidFilter_log_false s1 s1 nm,
      pidFilter_false_of_pre s1 _ h12, pidFilter_own s1 nm, mkRec, pidFileName_extract]
  · rw [listProcesses_true_mk, hfa, hstep1, hstep2]
    simp [pidFilter_log_false s2 s2 nm, pidFilter_log_false s2 s1 nm,
      pidFilter_false_of_pre s2 _ h21, pidFilter_own s2 nm, mkRec, pidFileName_extract]

/-- C3 counterexample: the scopes "/a-b" and "/a/b" are distinct but
encodeProject collapses both to "a-b", so after starting x under "/a/b",
list("/a-b") shows that foreign record, and starting the same name under
"/a-b" does not succeed — it is rejected as already running. -/
theorem scope_isolation_counterexample :
    s1X ≠ s2X
      ∧ encodeProject s1X = encodeProject s2X
      ∧ (startProcess sysE (some 7) s2X nW cmdW none).1
          = .ok { name := nW, pid := some 7, running := true,
                  logFile := tmpDir ++ logFileName s2X nW }
      ∧ (listProcesses sysX s1X).map (fun r => r.name) = [nW]
      ∧ (startProcess sysX (some 8) s1X nW cmd2W none).1
          = .error (.alreadyRunning nW (some 7))
      ∧ (startProcess sysX (some 8) s1X nW cmd2W none).2 = sysX := by
  refine ⟨by decide, by decide, by rfl, by decide, by rfl, by decide⟩

/-- C3 amended: scope isolation holds exactly up to the prefix encoding.
When the s1 scope tag is not a prefix of s2's pid-file basename, a start
under s2 leaves the stored part of s1's listing unchanged; and when neither
scope's tag matches the other's pid file, the same name starts successfully
under both scopes and each scope's listing shows exactly its own record.
(Colliding encodings — e.g. "/a-b" vs "/a/b" — are excluded, as the
counterexample forces.) -/
theorem scope_isolation_amended :
    (∀ (sys : Sys) (s1 s2 nm : Str) (pid : Nat) (cmd : Str) (cwd : Option Str)
        (r : ProcessInfo) (sys2 : Sys),
      startProcess sys (some pid) s2 nm cmd cwd = (.ok r, sys2) →
      (scopePref s1).isPrefixOf (pidFileName s2 nm) = false →
      (listProcesses sys2 s1).map staticPart = (listProcesses sys s1).map staticPart)
      ∧ (∀ (s1 s2 nm : Str) (pid1 pid2 : Nat) (cmd1 cmd2 : Str),
        (scopePref s1).isPrefixOf (pidFileName s2 nm) = false →
        (scopePref s2).isPrefixOf (pidFileName s1 nm) = false →
        ∃ r1 sys1 r2 sys2,
          startProcess sysE (some pid1) s2 nm cmd1 none = (.ok r1, sys1)
          ∧ startProcess sys1 (some pid2) s1 nm cmd2 none = (.ok r2, sys2)
          ∧ (listProcesses sys2 s1).map (fun r => r.name) = [nm]
          ∧ (listProcesses sys2 s2).map (fun r => r.name) = [nm]) :=
  ⟨fun sys s1 s2 nm pid cmd cwd r sys2 h hp =>
      scope_isolation_partA sys s1 s2 nm pid cmd cwd r sys2 h hp,
   fun s1 s2 nm pid1 pid2 cmd1 cmd2 h12 h21 =>
      scope_isolation_partB s1 s2 nm pid1 pid2 cmd1 cmd2 h12 h21⟩

/-- C3 amended witness: scopes /p1 and /p2 do not collide, so x starts under
both and each listing shows only its own record. -/
theorem scope_isolation_amended_witness :
    ∃ r1 sys1 r2 sys2,
      startProcess sysE (some 7) "/p2".toList nW cmdW none = (.ok r1, sys1)
      ∧ startProcess sys1 (some 8) "/p1".toList nW cmd2W none = (.ok r2, sys2)
      ∧ (listProcesses sys2 "/p1".toList).map (fun r => r.name) = [nW]
      ∧ (listProcesses sys2 "/p2".toList).map (fun r => r.name) = [nW] :=
  scope_isolation_amended.2 "/p1".toList "/p2".toList nW 7 8 cmdW cmd2W
    (by decide) (by decide)
